import Mathlib

/-!
# cmd/setup: download, unpack and stage the DuckDB static library

A shallow embedding of `cmd/setup/main.go`.  The program is one `main`
function made of calls into the Go standard library, so the development has
two layers:

* a model of the library calls the program makes (`fmt.Sprintf` with `%s`
  verbs, `filepath.Clean`/`Dir`/`Join`, and the `os` calls on a POSIX file
  tree without symbolic links or permissions);
* the program itself (`platforms`, `version`, `releaseURL`, `main`), written
  as explicit state passing over a `World` that carries the file tree, the
  chronological trace of the calls made, and the stack of deferred calls.

What the model fixes:

* `log.Fatal` is `log.Print` followed by `os.Exit(1)`: the process ends at
  once and deferred calls are not run.  A fatal phase returns
  `Except.error w`, with `w` the state the process ends in.
* `Event.log` carries the line as printed, without the time stamp and the
  final newline.  The text of an error that comes from the library is not
  modelled; a fixed text stands for it.
* The network, the zip decoder, the working directory and the name
  `os.CreateTemp` picks are parameters (`Env`).  An archive is the list of
  entries the decoder returns; an entry carries its bytes, and whether
  opening or reading it fails.
* Calls whose result the program drops (`os.MkdirAll`, `os.Remove`,
  `os.WriteFile`, `os.Rename`) still record in the trace whether they
  succeeded.  An `os.MkdirAll` event also lists the locations the call
  issued `Mkdir` for; a call that finds its path by `Stat` issues none.
* A path name is refused when it is longer than 4095 bytes or has an
  element longer than 255 bytes or holding a NUL byte.
-/

namespace Setup

/-! ## Strings and paths -/

/-- File contents. -/
abbrev Bytes := List UInt8

/-- A location in the file tree: the names from the root down. -/
abbrev Path := List String

/-- The conversion `[]byte(s)`: the UTF-8 encoding of a string. -/
def toBytes (s : String) : Bytes := s.data.flatMap String.utf8EncodeChar

/-- Split a character list at every `/` (as `strings.Split(s, "/")`). -/
def splitSlash : List Char → List (List Char)
  | [] => [[]]
  | c :: cs =>
    match splitSlash cs with
    | [] => [[c]]
    | seg :: rest => if c = '/' then [] :: seg :: rest else (c :: seg) :: rest

/-- The slash-separated elements of a path name. -/
def pathElems (s : String) : List String := (splitSlash s.data).map String.mk

/-- Join path elements with `/` (as `strings.Join(elems, "/")`). -/
def joinSlash : List String → String
  | [] => ""
  | [a] => a
  | a :: b :: rest => a ++ "/" ++ joinSlash (b :: rest)

/-- Model of `fmt.Sprintf` restricted to the `%s` verb with string arguments. -/
def sprintfAux : List Char → List String → List Char
  | '%' :: 's' :: rest, a :: as => a.data ++ sprintfAux rest as
  | '%' :: 's' :: rest, [] => "%!s(MISSING)".data ++ sprintfAux rest []
  | c :: rest, as => c :: sprintfAux rest as
  | [], _ => []

/-- Model of `fmt.Sprintf(format, args...)` for `%s` verbs. -/
def sprintf (format : String) (args : List String) : String :=
  String.mk (sprintfAux format.data args)

/-- The line `log` prints for a message: `log.Output` adds a newline only
when the message does not end in one, so a final newline is not part of the
line. -/
def logLine (s : String) : String :=
  if s.data.getLast? = some '\n' then String.mk s.data.dropLast else s

/-- Whether a path name is rooted (starts with `/`). -/
def isRooted (s : String) : Bool := s.data.head? = some '/'

/-- The element-wise work of `filepath.Clean`: drop empty and `.` elements,
cancel `..` against the element before it, drop `..` at the root.  `acc` is
the output so far, innermost element first. -/
def cleanElems (rooted : Bool) : List String → List String → List String
  | acc, [] => acc.reverse
  | acc, seg :: rest =>
    if seg = "" ∨ seg = "." then cleanElems rooted acc rest
    else if seg = ".." then
      match acc with
      | top :: acc' =>
        if top = ".." then cleanElems rooted (".." :: acc) rest
        else cleanElems rooted acc' rest
      | [] => if rooted then cleanElems rooted [] rest else cleanElems rooted [".."] rest
    else cleanElems rooted (seg :: acc) rest

/-- Model of `filepath.Clean` on a POSIX system. -/
def filepathClean (s : String) : String :=
  if s = "" then "."
  else
    let out := cleanElems (isRooted s) [] (pathElems s)
    if isRooted s then "/" ++ joinSlash out
    else if out = [] then "." else joinSlash out

/-- Model of `filepath.Dir`: clean what stands before the last separator, separator
included. -/
def filepathDir (s : String) : String :=
  filepathClean (String.mk (s.data.reverse.dropWhile (fun c => c ≠ '/')).reverse)

/-- Model of `filepath.Join`: from the first non-empty element on, join with `/` and
clean; the empty string when there is no such element. -/
def filepathJoin (elems : List String) : String :=
  match elems.dropWhile (fun e => e = "") with
  | [] => ""
  | es => filepathClean (joinSlash es)

/-! ## The file tree -/

/-- What a location holds. -/
inductive Node where
  | file (data : Bytes)
  | dir
  deriving DecidableEq, Repr

/-- A file tree: a finite map from locations to nodes. -/
abbrev FS := List (Path × Node)

/-- The node at a location. -/
def FS.get : FS → Path → Option Node
  | [], _ => none
  | (q, n) :: rest, p => if q = p then some n else FS.get rest p

/-- Remove a location. -/
def FS.del (fs : FS) (p : Path) : FS := fs.filter (fun e => decide (e.1 ≠ p))

/-- Set the node at a location. -/
def FS.put (fs : FS) (p : Path) (n : Node) : FS := (p, n) :: fs.del p

/-- Whether `p` lies strictly below `d`. -/
def below (d p : Path) : Bool := d.isPrefixOf p && decide (p ≠ d)

/-- Whether a directory has anything in it. -/
def FS.hasChildren (fs : FS) (d : Path) : Bool := fs.any (fun e => below d e.1)

/-- Move the subtree at `src` to `dst`. -/
def FS.move (fs : FS) (src dst : Path) : FS :=
  fs.map (fun e => if src.isPrefixOf e.1 then (dst ++ e.1.drop src.length, e.2) else e)

/-- The location one path element further on. -/
def stepTo (cur : Path) (seg : String) : Path :=
  if seg = "" ∨ seg = "." then cur
  else if seg = ".." then cur.dropLast
  else cur ++ [seg]

/-- An element that names no new entry: empty, `.` or `..`. -/
def isSpecial (seg : String) : Bool := seg = "" || seg = "." || seg = ".."

/-- Follow path elements, each of which must lead to an existing directory. -/
def walk (fs : FS) : Path → List String → Option Path
  | cur, [] => some cur
  | cur, seg :: rest =>
    if fs.get (stepTo cur seg) = some Node.dir then walk fs (stepTo cur seg) rest else none

/-- A path element the kernel accepts: at most 255 bytes (`NAME_MAX`), none
of them NUL. -/
def validElem (seg : String) : Bool :=
  decide (seg.utf8ByteSize ≤ 255) && seg.data.all (fun c => c ≠ Char.ofNat 0)

/-- A path name the kernel accepts: at most 4095 bytes (`PATH_MAX` less the
terminator), every element acceptable. -/
def validPath (name : String) : Bool :=
  decide (name.utf8ByteSize ≤ 4095) && (pathElems name).all validElem

/-- Where resolution of a name starts: the root for a rooted name, the
working directory otherwise. -/
def startDir (cwd : Path) (name : String) : Path := if isRooted name then [] else cwd

/-- Resolve a path name the way the kernel does: the name must be
acceptable (`ENAMETOOLONG`, `EINVAL` otherwise), every element but the last
must be an existing directory, and the last one may name a missing entry. -/
def resolve (fs : FS) (cwd : Path) (name : String) : Option Path :=
  if name = "" then none
  else if !validPath name then none
  else if fs.get (startDir cwd name) ≠ some Node.dir then none
  else
    match walk fs (startDir cwd name) (pathElems name).dropLast with
    | none => none
    | some par =>
      let last := (pathElems name).getLast?.getD ""
      if isSpecial last then
        if fs.get (stepTo par last) = some Node.dir then some (stepTo par last) else none
      else some (par ++ [last])

/-! ## The `os` calls -/

/-- Model of `os.Create(name)`: open for writing, create if missing, truncate.  Fails
when the name does not resolve or names a directory.  Gives the location of
the file and the new tree. -/
def osCreate (fs : FS) (cwd : Path) (name : String) : Option (Path × FS) :=
  match resolve fs cwd name with
  | none => none
  | some p =>
    match fs.get p with
    | some Node.dir => none
    | _ => some (p, fs.put p (Node.file []))

/-- Model of `os.Stat(name)`: the node the name resolves to, if any. -/
def osStat (fs : FS) (cwd : Path) (name : String) : Option Node :=
  match resolve fs cwd name with
  | none => none
  | some p => fs.get p

/-- The slow path of `os.MkdirAll` from a directory on: enter each element,
calling `Mkdir` for it when it is missing; stop with an error at a regular
file, at an element the kernel does not accept, or when the path so far,
`used` bytes before this element, grows past 4095 bytes.  Gives the new
tree, whether the call succeeded, and the locations `Mkdir` was called
for. -/
def mkdirAllFrom : FS → Path → Nat → List String → FS × Bool × List Path
  | fs, _, _, [] => (fs, true, [])
  | fs, cur, used, seg :: rest =>
    if !validElem seg || decide (4095 < used + seg.utf8ByteSize) then (fs, false, [])
    else
      match fs.get (stepTo cur seg) with
      | some Node.dir => mkdirAllFrom fs (stepTo cur seg) (used + seg.utf8ByteSize + 1) rest
      | some (Node.file _) => (fs, false, [])
      | none =>
        if isSpecial seg then (fs, false, [])
        else
          let r := mkdirAllFrom (fs.put (stepTo cur seg) Node.dir) (stepTo cur seg)
            (used + seg.utf8ByteSize + 1) rest
          (r.1, r.2.1, stepTo cur seg :: r.2.2)

/-- Model of `os.MkdirAll(path, 0755)`: the new tree, whether the call
succeeded, and the locations `Mkdir` was called for.  The fast path comes
first: when `Stat` finds the path, the call returns at once, with success
for a directory and an error for a file, and calls no `Mkdir`.  Directories
made before a failure stay. -/
def osMkdirAll (fs : FS) (cwd : Path) (path : String) : FS × Bool × List Path :=
  match osStat fs cwd path with
  | some Node.dir => (fs, true, [])
  | some (Node.file _) => (fs, false, [])
  | none =>
    if path = "" then (fs, false, [])
    else if fs.get (startDir cwd path) ≠ some Node.dir then (fs, false, [])
    else mkdirAllFrom fs (startDir cwd path) 0 (pathElems path)

/-- Model of `os.WriteFile(name, data, 0644)`: create or truncate, then write. -/
def osWriteFile (fs : FS) (cwd : Path) (name : String) (data : Bytes) : FS × Bool :=
  match osCreate fs cwd name with
  | none => (fs, false)
  | some (p, fs1) => (fs1.put p (Node.file data), true)

/-- Model of `os.Remove(name)`: unlink a file or remove an empty directory. -/
def osRemove (fs : FS) (cwd : Path) (name : String) : FS × Bool :=
  match resolve fs cwd name with
  | none => (fs, false)
  | some p =>
    match fs.get p with
    | none => (fs, false)
    | some (Node.file _) => (fs.del p, true)
    | some Node.dir => if fs.hasChildren p then (fs, false) else (fs.del p, true)

/-- The `rename(2)` system call. -/
def sysRename (fs : FS) (cwd : Path) (oldname newname : String) : FS × Bool :=
  match resolve fs cwd oldname, resolve fs cwd newname with
  | some po, some pn =>
    match fs.get po with
    | none => (fs, false)
    | some (Node.file d) =>
      if po = pn then (fs, true)
      else if fs.get pn = some Node.dir then (fs, false)
      else ((fs.del po).put pn (Node.file d), true)
    | some Node.dir =>
      if po = pn then (fs, true)
      else match fs.get pn with
        | some (Node.file _) => (fs, false)
        | some Node.dir => if fs.hasChildren pn then (fs, false) else ((fs.del pn).move po pn, true)
        | none => if po.isPrefixOf pn then (fs, false) else (fs.move po pn, true)
  | _, _ => (fs, false)

/-- Model of `os.Rename(oldname, newname)`: when the new name is an existing
directory the call fails, unless both names are different spellings of that
same directory; otherwise it is the system call. -/
def osRename (fs : FS) (cwd : Path) (oldname newname : String) : FS × Bool :=
  match resolve fs cwd newname with
  | some pn =>
    if fs.get pn = some Node.dir then
      match resolve fs cwd oldname with
      | none => (fs, false)
      | some po =>
        if fs.get po = none then (fs, false)
        else if newname = oldname ∨ po ≠ pn then (fs, false)
        else sysRename fs cwd oldname newname
    else sysRename fs cwd oldname newname
  | none => sysRename fs cwd oldname newname

/-- Model of `os.CreateTemp`: exclusive creation of a new empty file. -/
def osCreateExcl (fs : FS) (cwd : Path) (name : String) : Option (Path × FS) :=
  match resolve fs cwd name with
  | none => none
  | some p =>
    match fs.get p with
    | none => some (p, fs.put p (Node.file []))
    | some _ => none

/-- Model of `os.Open(name)` of a regular file followed by reading it whole. -/
def osReadFile (fs : FS) (cwd : Path) (name : String) : Option Bytes :=
  match resolve fs cwd name with
  | none => none
  | some p =>
    match fs.get p with
    | some (Node.file d) => some d
    | _ => none

/-- Model of `io.Copy` from a source that delivers `data`, or fails after `n` bytes
when `fault = some n`: the bytes written and whether the copy succeeded. -/
def ioCopy (data : Bytes) (fault : Option Nat) : Bytes × Bool :=
  match fault with
  | none => (data, true)
  | some n => (data.take n, false)

/-! ## The world the program runs in -/

/-- The resources the program opens. -/
inductive Handle where
  | respBody
  | tempFile
  | zipReader
  | entryReader (i : Nat)
  | dstFile (i : Nat)
  deriving DecidableEq, Repr

/-- The calls the program makes, with their outcome. -/
inductive Event where
  | log (msg : String)
  | httpGet (url : String) (ok : Bool)
  | createTemp (name : String) (ok : Bool)
  | copy (dst : Handle) (ok : Bool)
  | openZip (name : String) (ok : Bool)
  | openEntry (i : Nat) (ok : Bool)
  | mkdirAll (path : String) (mkdirs : List Path) (ok : Bool)
  | create (i : Nat) (name : String) (ok : Bool)
  | remove (name : String) (ok : Bool)
  | writeFile (name : String) (ok : Bool)
  | rename (oldname newname : String) (ok : Bool)
  | close (h : Handle)
  deriving DecidableEq, Repr

/-- The state of a run: the file tree, the calls made so far in order, and
the deferred `Close` calls, the latest first. -/
structure World where
  fs : FS
  trace : List Event
  defers : List Handle

/-- Record a call. -/
def World.emit (w : World) (e : Event) : World := ⟨w.fs, w.trace ++ [e], w.defers⟩

/-- Replace the file tree. -/
def World.setFs (w : World) (fs : FS) : World := ⟨fs, w.trace, w.defers⟩

/-- The statement `defer h.Close()`. -/
def World.pushDefer (w : World) (h : Handle) : World := ⟨w.fs, w.trace, h :: w.defers⟩

/-- Return from `main`: the deferred calls run, the latest first. -/
def World.runDefers (w : World) : World := ⟨w.fs, w.trace ++ w.defers.map Event.close, []⟩

/-- The call `log.Fatal(msg)`: print, then `os.Exit(1)` without running the
deferred calls.  The state is the one the process ends in. -/
def fatal (w : World) (msg : String) : World := w.emit (Event.log msg)

/-- What `http.Get` delivers when the transport succeeds: the body, and
where reading it breaks off, if it does.  The status code is not looked at. -/
structure Response where
  body : Bytes
  readFault : Option Nat

/-- One `*zip.File` of the opened archive. -/
structure ZipEntry where
  name : String
  isDir : Bool
  data : Bytes
  openFails : Bool
  readFault : Option Nat
  deriving DecidableEq, Repr

/-- What the run does not decide itself: the working directory, the name
`os.CreateTemp` picks, the network, and the zip decoder. -/
structure Env where
  cwd : Path
  tempDir : String
  tempRand : String
  httpGet : String → Except String Response
  unzip : Bytes → Except String (List ZipEntry)

/-- The name `os.CreateTemp("", "duckdb-static-lib-*.zip")` creates. -/
def tempName (env : Env) : String :=
  (if env.tempDir.data.getLast? = some '/' then env.tempDir else env.tempDir ++ "/")
    ++ "duckdb-static-lib-" ++ env.tempRand ++ ".zip"

/-! ## The program -/

/-- The constant `version`. -/
def version : String := "1.2.0"

/-- The constant `releaseURL`. -/
def releaseURL : String :=
  "https://github.com/duckdb/duckdb/releases/download/v%s/static-lib-%s.zip"

/-- Indexing a Go map given by its literal: `m[k]` with the `ok` flag. -/
def mapLookup {α : Type} : List (String × α) → String → Option α
  | [], _ => none
  | (k, v) :: rest, key => if key = k then some v else mapLookup rest key

/-- The variable `platforms`. -/
def platforms : List (String × List (String × String)) :=
  [ ("darwin", [("arm64", "osx-arm64"), ("amd64", "osx-amd64")]),
    ("linux", [("arm64", "linux-arm64"), ("amd64", "linux-amd64")]),
    ("windows", [("amd64", "windows-mingw")]) ]

/-- The two ways platform resolution fails. -/
inductive PlatformError where
  | unsupportedPlatform (goos : String)
  | unsupportedArchitecture (goos arch : String)
  deriving DecidableEq, Repr

/-- The text handed to `log.Fatal`. -/
def PlatformError.message : PlatformError → String
  | unsupportedPlatform goos => sprintf "unsupported GOOS: %s" [goos]
  | unsupportedArchitecture goos arch =>
    sprintf "unsupported GOARCH: %s for GOOS: %s" [arch, goos]

/-- Lines 43-51 of `main`: the two map lookups. -/
def resolvePlatform (goos arch : String) : Except PlatformError String :=
  match mapLookup platforms goos with
  | none => Except.error (PlatformError.unsupportedPlatform goos)
  | some platformMap =>
    match mapLookup platformMap arch with
    | none => Except.error (PlatformError.unsupportedArchitecture goos arch)
    | some mapping => Except.ok mapping

/-- Lines 53-69 of `main`: build the URL, GET it, copy the body into a new
temporary file.  An error result is the state `log.Fatal` ends the process
in. -/
def download (env : Env) (mapping : String) (w : World) : Except World (World × String) :=
  let url := sprintf releaseURL [version, mapping]
  let w1 := w.emit (Event.log (logLine (sprintf "Downloading from %s...\n" [url])))
  match env.httpGet url with
  | Except.error err => Except.error (fatal (w1.emit (Event.httpGet url false)) err)
  | Except.ok resp =>
    let w2 := (w1.emit (Event.httpGet url true)).pushDefer Handle.respBody
    match osCreateExcl w2.fs env.cwd (tempName env) with
    | none =>
      Except.error (fatal (w2.emit (Event.createTemp (tempName env) false)) "CreateTemp failed")
    | some (p, fs1) =>
      let w3 := (w2.setFs fs1).emit (Event.createTemp (tempName env) true)
      let c := ioCopy resp.body resp.readFault
      let w4 := (w3.setFs (w3.fs.put p (Node.file c.1))).emit (Event.copy Handle.tempFile c.2)
      if c.2 then Except.ok (w4.emit (Event.close Handle.tempFile), tempName env)
      else Except.error (fatal w4 "copy failed")

/-- Lines 79-95 of `main`: the loop body for the entry with index `i`. -/
def extractEntry (env : Env) (i : Nat) (f : ZipEntry) (w : World) : Except World World :=
  if f.isDir then Except.ok w
  else if f.openFails then
    Except.error (fatal (w.emit (Event.openEntry i false)) "open entry failed")
  else
    let w1 := (w.emit (Event.openEntry i true)).pushDefer (Handle.entryReader i)
    let m := osMkdirAll w1.fs env.cwd (filepathDir f.name)
    let w2 := (w1.setFs m.1).emit (Event.mkdirAll (filepathDir f.name) m.2.2 m.2.1)
    match osCreate w2.fs env.cwd f.name with
    | none => Except.error (fatal (w2.emit (Event.create i f.name false)) "create failed")
    | some (p, fs1) =>
      let w3 := (w2.setFs fs1).emit (Event.create i f.name true)
      let c := ioCopy f.data f.readFault
      let w4 := (w3.setFs (w3.fs.put p (Node.file c.1))).emit (Event.copy (Handle.dstFile i) c.2)
      if c.2 then Except.ok (w4.emit (Event.close (Handle.dstFile i)))
      else Except.error (fatal w4 "copy failed")

/-- Lines 78-96 of `main`: the loop over `r.File`, in archive order. -/
def extractLoop (env : Env) : Nat → List ZipEntry → World → Except World World
  | _, [], w => Except.ok w
  | i, f :: rest, w =>
    match extractEntry env i f w with
    | Except.error w1 => Except.error w1
    | Except.ok w1 => extractLoop env (i + 1) rest w1

/-- Lines 71-97 of `main`: open the temporary file as a zip archive, unpack
it, remove the temporary file. -/
def extract (env : Env) (zipFile : String) (w : World) : Except World World :=
  let w1 := w.emit (Event.log "Download complete, extracting zip file.")
  match osReadFile w1.fs env.cwd zipFile with
  | none => Except.error (fatal (w1.emit (Event.openZip zipFile false)) "open failed")
  | some bytes =>
    match env.unzip bytes with
    | Except.error err => Except.error (fatal (w1.emit (Event.openZip zipFile false)) err)
    | Except.ok files =>
      let w2 := (w1.emit (Event.openZip zipFile true)).pushDefer Handle.zipReader
      match extractLoop env 0 files w2 with
      | Except.error w3 => Except.error w3
      | Except.ok w3 =>
        let r := osRemove w3.fs env.cwd zipFile
        Except.ok ((w3.setFs r.1).emit (Event.remove zipFile r.2))

/-- Lines 99-107 of `main`: stage the library under `deps/<os>_<arch>`.  No
result of the four calls is looked at. -/
def finalize (env : Env) (goos arch : String) (w : World) : World :=
  let w1 := w.emit (Event.log "Extraction done, finalizing dependencies.")
  let depDir := sprintf "deps/%s_%s" [goos, arch]
  let r1 := osMkdirAll w1.fs env.cwd depDir
  let w2 := (w1.setFs r1.1).emit (Event.mkdirAll depDir r1.2.2 r1.2.1)
  let marker := filepathJoin [depDir, "vendor.go"]
  let r2 := osWriteFile w2.fs env.cwd marker (toBytes (sprintf "package %s_%s" [goos, arch]))
  let w3 := (w2.setFs r2.1).emit (Event.writeFile marker r2.2)
  let lib := filepathJoin [depDir, "libduckdb.a"]
  let r3 := osRename w3.fs env.cwd "libduckdb_bundle.a" lib
  let w4 := (w3.setFs r3.1).emit (Event.rename "libduckdb_bundle.a" lib r3.2)
  let r4 := osRename w4.fs env.cwd "duckdb.h" "duckdb.h"
  let w5 := (w4.setFs r4.1).emit (Event.rename "duckdb.h" "duckdb.h" r4.2)
  w5.emit (Event.log "Setup process completed.")

/-- Lines 35-97 of `main`: everything before finalization. -/
def fetchAndExtract (env : Env) (goos arch : String) (w : World) : Except World World :=
  let w1 := w.emit (Event.log (logLine (sprintf "Detected GOOS: %s, %s\n" [goos, arch])))
  match resolvePlatform goos arch with
  | Except.error e => Except.error (fatal w1 e.message)
  | Except.ok mapping =>
    match download env mapping w1 with
    | Except.error w2 => Except.error w2
    | Except.ok (w2, zipFile) => extract env zipFile w2

/-- The function `main` with `-os goos -arch arch`: the state the process
ends in and its exit status. -/
def main (env : Env) (goos arch : String) (w : World) : World × Nat :=
  match fetchAndExtract env goos arch w with
  | Except.error w1 => (w1, 1)
  | Except.ok w1 => ((finalize env goos arch w1).runDefers, 0)

/-! ## Vocabulary for the properties -/

/-- The process state at start: nothing logged, nothing deferred. -/
def World.start (fs : FS) : World := ⟨fs, [], []⟩

/-- The state a phase ends in, fatal or not. -/
def endState : Except World World → World
  | Except.error w => w
  | Except.ok w => w

/-- The keys of a Go map literal. -/
def mapKeys {α : Type} (m : List (String × α)) : List String := m.map Prod.fst

/-- The URL of an HTTP request, for the events that are one. -/
def Event.url : Event → Option String
  | Event.httpGet u _ => some u
  | _ => none

/-- The URLs requested over HTTP in a trace, in order. -/
def requestedURLs (tr : List Event) : List String := tr.filterMap Event.url

/-- The resource an event opens, if it opens one. -/
def Event.opens : Event → Option Handle
  | Event.httpGet _ true => some Handle.respBody
  | Event.createTemp _ true => some Handle.tempFile
  | Event.openZip _ true => some Handle.zipReader
  | Event.openEntry i true => some (Handle.entryReader i)
  | Event.create i _ true => some (Handle.dstFile i)
  | _ => none

/-- The resource an event closes, if it closes one. -/
def Event.closes : Event → Option Handle
  | Event.close h => some h
  | _ => none

/-- The resources opened in a trace. -/
def openedHandles (tr : List Event) : List Handle := tr.filterMap Event.opens

/-- The resources closed in a trace. -/
def closedHandles (tr : List Event) : List Handle := tr.filterMap Event.closes

/-- One event of the bookkeeping of open resources: an open puts the
resource on the list, a `Close` takes it off and is an error when the
resource is not on it. -/
def stepOpen (acc : Option (List Handle)) (e : Event) : Option (List Handle) :=
  match acc with
  | none => none
  | some hs =>
    match e.opens, e.closes with
    | some h, _ => some (h :: hs)
    | none, some h => if h ∈ hs then some (hs.erase h) else none
    | none, none => some hs

/-- The resources a trace leaves open, the latest first; `none` when some
`Close` is for a resource that is not open. -/
def leftOpen (tr : List Event) : Option (List Handle) := tr.foldl stepOpen (some [])

/-- Every resource opened so far has been closed or has its `Close`
deferred, and the resources open now are exactly the ones with a deferred
`Close`. -/
def Accounted (w : World) : Prop :=
  leftOpen w.trace = some w.defers ∧
  ∀ h ∈ openedHandles w.trace, h ∈ closedHandles w.trace ∨ h ∈ w.defers

/-- Whether an event is a failed write of a file or a failed move of
`libduckdb_bundle.a`: the two calls that stage the marker and the library. -/
def Event.stagingFailed : Event → Bool
  | Event.writeFile _ ok => !ok
  | Event.rename oldname _ ok => !ok && decide (oldname = "libduckdb_bundle.a")
  | _ => false

/-- Whether an event is an `os.Create` that returned an error. -/
def Event.createFailed : Event → Bool
  | Event.create _ _ false => true
  | _ => false

/-- An entry the zip reader can open and read to the end. -/
def ZipEntry.readable (f : ZipEntry) : Bool := !f.openFails && f.readFault.isNone

/-- A relative path name in the form archives store it: every element an
ordinary name (none empty, `.` or `..`), hence not rooted. -/
def relativeName (name : String) : Bool := (pathElems name).all (fun s => !isSpecial s)

/-- The locations `Mkdir` was called for in a trace, in order. -/
def mkdirCalls (tr : List Event) : List Path :=
  tr.flatMap (fun e => match e with
    | Event.mkdirAll _ made _ => made
    | _ => [])

/-- The entries of an archive that are not directories. -/
def fileEntries (files : List ZipEntry) : List ZipEntry := files.filter (fun f => !f.isDir)

/-- The names of the files `os.Create` made in a trace, in order. -/
def createdNames (tr : List Event) : List String :=
  tr.filterMap (fun e => match e with
    | Event.create _ n true => some n
    | _ => none)

/-- Inverse of `splitSlash`: put the `/` back. -/
def joinChars : List (List Char) → List Char
  | [] => []
  | [a] => a
  | a :: b :: rest => a ++ '/' :: joinChars (b :: rest)

/-! ## Sample runs -/

/-- A small file tree: `/tmp` and the working directory `/home/proj`. -/
def sampleFS : FS :=
  [([], Node.dir), (["tmp"], Node.dir), (["home"], Node.dir), (["home", "proj"], Node.dir)]

/-- An archive with a directory entry, a file at top level, a file two
directories down, and the static library. -/
def sampleArchive : List ZipEntry :=
  [ ⟨"include/", true, [], false, none⟩,
    ⟨"duckdb.h", false, [47, 47], false, none⟩,
    ⟨"include/ext/api.h", false, [35], false, none⟩,
    ⟨"libduckdb_bundle.a", false, [33, 60, 97], false, none⟩ ]

/-- An environment in which the download delivers `sampleArchive`. -/
def sampleEnv : Env :=
  ⟨["home", "proj"], "/tmp", "42", fun _ => Except.ok ⟨[80, 75], none⟩,
    fun _ => Except.ok sampleArchive⟩

/-- An environment in which the connection is refused. -/
def refusedEnv : Env :=
  ⟨["home", "proj"], "/tmp", "42", fun _ => Except.error "connection refused",
    fun _ => Except.ok sampleArchive⟩

/-- An environment in which reading the response body breaks off. -/
def brokenBodyEnv : Env :=
  ⟨["home", "proj"], "/tmp", "42", fun _ => Except.ok ⟨[80, 75], some 1⟩,
    fun _ => Except.ok sampleArchive⟩

/-- An environment in which reading the one archive entry breaks off. -/
def brokenEntryEnv : Env :=
  ⟨["home", "proj"], "/tmp", "42", fun _ => Except.ok ⟨[80, 75], none⟩,
    fun _ => Except.ok [⟨"duckdb.h", false, [47, 47], false, some 1⟩]⟩

/-- An environment whose archive holds the header only. -/
def headerOnlyEnv : Env :=
  ⟨["home", "proj"], "/tmp", "42", fun _ => Except.ok ⟨[80, 75], none⟩,
    fun _ => Except.ok [⟨"duckdb.h", false, [47, 47], false, none⟩]⟩

/-- A file tree with a file next to the working directory. -/
def slipFS : FS :=
  [(["home", "notes"], Node.file [1]), ([], Node.dir), (["tmp"], Node.dir),
    (["home"], Node.dir), (["home", "proj"], Node.dir)]

/-- An archive with a name that climbs out of the working directory and a
rooted name. -/
def slipArchive : List ZipEntry :=
  [ ⟨"../notes", false, [6], false, none⟩,
    ⟨"/tmp/owned", false, [7], false, none⟩ ]

/-- An environment in which the download delivers `slipArchive`. -/
def slipEnv : Env :=
  ⟨["home", "proj"], "/tmp", "42", fun _ => Except.ok ⟨[80, 75], none⟩,
    fun _ => Except.ok slipArchive⟩

/-! ## Theorems -/

/-! ### Formatting -/

theorem logLine_newline (cs : List Char) :
    logLine (String.mk (cs ++ ['\n'])) = String.mk cs := by
  simp [logLine]

theorem sprintf_detected (goos arch : String) :
    logLine (sprintf "Detected GOOS: %s, %s\n" [goos, arch]) =
      "Detected GOOS: " ++ goos ++ ", " ++ arch := by
  have h : sprintf "Detected GOOS: %s, %s\n" [goos, arch] =
      String.mk (("Detected GOOS: ".data ++ (goos.data ++ (", ".data ++ arch.data))) ++
        ['\n']) := by
    apply String.ext
    show "Detected GOOS: ".data ++ (goos.data ++ (", ".data ++ (arch.data ++ ['\n']))) = _
    simp
  rw [h, logLine_newline]
  apply String.ext
  simp [String.data_append]

theorem sprintf_downloading (url : String) :
    logLine (sprintf "Downloading from %s...\n" [url]) =
      "Downloading from " ++ url ++ "..." := by
  have h : sprintf "Downloading from %s...\n" [url] =
      String.mk (("Downloading from ".data ++ (url.data ++ "...".data)) ++ ['\n']) := by
    apply String.ext
    show "Downloading from ".data ++ (url.data ++ "...\n".data) = _
    simp
  rw [h, logLine_newline]
  apply String.ext
  simp [String.data_append]

theorem sprintf_unsupportedGoos (goos : String) :
    sprintf "unsupported GOOS: %s" [goos] = "unsupported GOOS: " ++ goos := by
  have h : sprintf "unsupported GOOS: %s" [goos] =
      String.mk ("unsupported GOOS: ".data ++ (goos.data ++ [])) := rfl
  rw [h]
  apply String.ext
  simp [String.data_append]

theorem sprintf_unsupportedGoarch (goos arch : String) :
    sprintf "unsupported GOARCH: %s for GOOS: %s" [arch, goos] =
      "unsupported GOARCH: " ++ arch ++ " for GOOS: " ++ goos := by
  have h : sprintf "unsupported GOARCH: %s for GOOS: %s" [arch, goos] =
      String.mk ("unsupported GOARCH: ".data ++
        (arch.data ++ (" for GOOS: ".data ++ (goos.data ++ [])))) := rfl
  rw [h]
  apply String.ext
  simp [String.data_append]

theorem sprintf_depDir (goos arch : String) :
    sprintf "deps/%s_%s" [goos, arch] = "deps/" ++ goos ++ "_" ++ arch := by
  have h : sprintf "deps/%s_%s" [goos, arch] =
      String.mk ("deps/".data ++ (goos.data ++ ("_".data ++ (arch.data ++ [])))) := rfl
  rw [h]
  apply String.ext
  simp [String.data_append]

theorem sprintf_package (goos arch : String) :
    sprintf "package %s_%s" [goos, arch] = "package " ++ goos ++ "_" ++ arch := by
  have h : sprintf "package %s_%s" [goos, arch] =
      String.mk ("package ".data ++ (goos.data ++ ("_".data ++ (arch.data ++ [])))) := rfl
  rw [h]
  apply String.ext
  simp [String.data_append]

theorem sprintf_releaseURL (t : String) :
    sprintf releaseURL [version, t] =
      "https://github.com/duckdb/duckdb/releases/download/v1.2.0/static-lib-" ++ t ++ ".zip" :=
  rfl

/-! ### Path names -/

theorem splitSlash_ne_nil (cs : List Char) : splitSlash cs ≠ [] := by
  cases cs with
  | nil => simp [splitSlash]
  | cons c cs =>
    unfold splitSlash
    split
    · simp
    · split <;> simp

theorem joinChars_splitSlash (cs : List Char) : joinChars (splitSlash cs) = cs := by
  induction cs with
  | nil => rfl
  | cons c cs ih =>
    unfold splitSlash
    cases h : splitSlash cs with
    | nil => exact absurd h (splitSlash_ne_nil cs)
    | cons seg rest =>
      rw [h] at ih
      simp only []
      by_cases hc : c = '/'
      · subst hc
        simp only [↓reduceIte]
        show [] ++ '/' :: joinChars (seg :: rest) = _
        rw [ih]; rfl
      · simp only [hc, ↓reduceIte]
        cases rest with
        | nil => simp only [joinChars] at ih ⊢; rw [ih]
        | cons b rest =>
          simp only [joinChars] at ih ⊢
          rw [← ih]; rfl

theorem pathElems_injective (a b : String) (h : pathElems a = pathElems b) : a = b := by
  unfold pathElems at h
  have hinj : Function.Injective String.mk := fun x y hxy => by injection hxy
  have h1 := List.map_injective_iff.mpr hinj h
  have h2 : joinChars (splitSlash a.data) = joinChars (splitSlash b.data) := by rw [h1]
  rw [joinChars_splitSlash, joinChars_splitSlash] at h2
  exact String.ext h2

theorem pathElems_ne_nil (s : String) : pathElems s ≠ [] := by
  simp [pathElems, splitSlash_ne_nil]

theorem splitSlash_noSlash (cs : List Char) (h : '/' ∉ cs) : splitSlash cs = [cs] := by
  induction cs with
  | nil => rfl
  | cons c cs ih =>
    have hc : c ≠ '/' := fun e => h (by simp [e])
    have hcs : '/' ∉ cs := fun e => h (List.mem_cons_of_mem _ e)
    unfold splitSlash
    rw [ih hcs]
    simp [hc]

theorem pathElems_noSlash (name : String) (h : '/' ∉ name.data) : pathElems name = [name] := by
  simp [pathElems, splitSlash_noSlash _ h]

theorem filepathDir_noSlash (name : String) (h : '/' ∉ name.data) : filepathDir name = "." := by
  have hd : name.data.reverse.dropWhile (fun c => decide (c ≠ '/')) = [] := by
    rw [List.dropWhile_eq_nil_iff]
    intro x hx
    have : x ≠ '/' := fun e => h (by rw [← e]; exact List.mem_reverse.mp hx)
    simpa using this
  unfold filepathDir
  rw [hd]
  rfl

theorem isRooted_noSlash (name : String) (h : '/' ∉ name.data) : isRooted name = false := by
  obtain ⟨cs⟩ := name
  cases cs with
  | nil => rfl
  | cons c cs =>
    have hc : c ≠ '/' := fun e => h (by simp [e])
    simp [isRooted, hc]

theorem relativeName_elems (name : String) (h : relativeName name = true) :
    ∀ s ∈ pathElems name, isSpecial s = false := by
  intro s hs
  simp only [relativeName, List.all_eq_true] at h
  simpa using h s hs

theorem relativeName_not_rooted (name : String) (h : relativeName name = true) :
    isRooted name = false := by
  obtain ⟨cs⟩ := name
  cases cs with
  | nil => rfl
  | cons c cs =>
    by_cases hc : c = '/'
    · subst hc
      exfalso
      have hel := relativeName_elems _ h
      cases hsp : splitSlash cs with
      | nil => exact splitSlash_ne_nil cs hsp
      | cons seg rest =>
        have : (String.mk []) ∈ pathElems (String.mk ('/' :: cs)) := by
          simp [pathElems, splitSlash, hsp]
        have := hel _ this
        simp [isSpecial] at this
    · simp [isRooted, hc]

theorem isPrefixOf_append (a b : Path) : a.isPrefixOf (a ++ b) = true := by
  induction a with
  | nil => simp [List.isPrefixOf]
  | cons x xs ih => simp [List.isPrefixOf, ih]

/-! ### The file tree and the `os` calls -/

theorem get_del (fs : FS) (p q : Path) :
    (fs.del p).get q = if q = p then none else fs.get q := by
  induction fs with
  | nil => simp [FS.del, FS.get]
  | cons e rest ih =>
    obtain ⟨k, n⟩ := e
    simp only [FS.del] at ih ⊢
    by_cases hk : k = p
    · subst hk
      simp only [List.filter_cons, ne_eq, not_true_eq_false, decide_False, Bool.false_eq_true,
        ↓reduceIte, ih, FS.get]
      by_cases hq : q = k
      · simp [hq]
      · have : ¬ k = q := fun h => hq h.symm
        simp [hq, this]
    · simp only [List.filter_cons, ne_eq, hk, not_false_eq_true, decide_True, ↓reduceIte, FS.get, ih]
      by_cases hq : k = q
      · subst hq; simp [hk]
      · simp [hq]

theorem get_put (fs : FS) (p q : Path) (n : Node) :
    (fs.put p n).get q = if q = p then some n else fs.get q := by
  simp only [FS.put, FS.get, get_del]
  by_cases h : p = q
  · simp [h]
  · have : ¬ q = p := fun h1 => h h1.symm
    simp [h, this]

theorem mkdirAllFrom_file (segs : List String) :
    ∀ (fs : FS) (cur : Path) (used : Nat) (p : Path) (d : Bytes),
      (mkdirAllFrom fs cur used segs).1.get p = some (Node.file d) ↔
        fs.get p = some (Node.file d) := by
  induction segs with
  | nil => intro fs cur used p d; simp [mkdirAllFrom]
  | cons seg rest ih =>
    intro fs cur used p d
    unfold mkdirAllFrom
    split
    · exact Iff.rfl
    · split
      · exact ih fs _ _ p d
      · exact Iff.rfl
      · rename_i hnone
        split
        · exact Iff.rfl
        · simp only []
          rw [ih, get_put]
          by_cases hp : p = stepTo cur seg
          · subst hp; simp [hnone]
          · simp [hp]

theorem osMkdirAll_file (fs : FS) (cwd p : Path) (path : String) (d : Bytes) :
    (osMkdirAll fs cwd path).1.get p = some (Node.file d) ↔ fs.get p = some (Node.file d) := by
  unfold osMkdirAll
  split
  · exact Iff.rfl
  · exact Iff.rfl
  · split
    · exact Iff.rfl
    · split
      · exact Iff.rfl
      · exact mkdirAllFrom_file _ fs _ _ p d

theorem resolve_dot (fs : FS) (cwd : Path) (h : fs.get cwd = some Node.dir) :
    resolve fs cwd "." = some cwd := by
  have h0 : validPath "." = true := by decide
  have h1 : startDir cwd "." = cwd := rfl
  have h2 : pathElems "." = ["."] := rfl
  have h3 : stepTo cwd "." = cwd := by simp [stepTo]
  have h4 : isSpecial "." = true := by decide
  unfold resolve
  simp [h0, h1, h2, h3, h4, h, walk]

theorem osMkdirAll_dot (fs : FS) (cwd : Path) (h : fs.get cwd = some Node.dir) :
    osMkdirAll fs cwd "." = (fs, true, []) := by
  unfold osMkdirAll osStat
  rw [resolve_dot fs cwd h]
  simp [h]

theorem walk_plain (fs : FS) (segs : List String) :
    ∀ (cur p : Path), (∀ s ∈ segs, isSpecial s = false) →
      walk fs cur segs = some p → p = cur ++ segs := by
  induction segs with
  | nil => intro cur p _ h; simp [walk] at h; simp [h]
  | cons seg rest ih =>
    intro cur p hs h
    have hseg : isSpecial seg = false := hs seg (List.mem_cons_self _ _)
    have hstep : stepTo cur seg = cur ++ [seg] := by
      simp only [isSpecial, Bool.or_eq_false_iff, decide_eq_false_iff_not] at hseg
      simp [stepTo, hseg.1.1, hseg.1.2, hseg.2]
    unfold walk at h
    split at h
    · have := ih _ p (fun s hsm => hs s (List.mem_cons_of_mem _ hsm)) h
      rw [this, hstep]; simp
    · cases h

theorem resolve_relative (fs : FS) (cwd p : Path) (name : String)
    (hrel : relativeName name = true) (h : resolve fs cwd name = some p) :
    p = cwd ++ pathElems name := by
  have hel := relativeName_elems name hrel
  have hroot := relativeName_not_rooted name hrel
  obtain ⟨x, hx⟩ : ∃ x, (pathElems name).getLast? = some x := by
    cases hl : (pathElems name).getLast? with
    | none => exact absurd (List.getLast?_eq_none_iff.mp hl) (pathElems_ne_nil name)
    | some x => exact ⟨x, rfl⟩
  have hsplit : (pathElems name).dropLast ++ [x] = pathElems name :=
    List.dropLast_append_getLast? x hx
  have hxm : x ∈ pathElems name := by rw [← hsplit]; simp
  have hxs : isSpecial x = false := hel x hxm
  unfold resolve at h
  simp only [startDir, hroot, Bool.false_eq_true, ↓reduceIte, hx, Option.getD_some, hxs] at h
  split at h
  · cases h
  · split at h
    · cases h
    · split at h
      · cases h
      · split at h
        · cases h
        · rename_i par hw
          have hpar := walk_plain fs _ cwd par
            (fun s hs => hel s (List.mem_of_mem_dropLast hs)) hw
          cases h
          rw [hpar, List.append_assoc, hsplit]

theorem osCreate_some (fs fs1 : FS) (cwd p : Path) (name : String)
    (h : osCreate fs cwd name = some (p, fs1)) :
    resolve fs cwd name = some p ∧ fs1 = fs.put p (Node.file []) := by
  unfold osCreate at h
  split at h
  · cases h
  · rename_i q hq
    split at h
    · cases h
    · cases h
      exact ⟨hq, rfl⟩

theorem validPath_plain (name : String) (hslash : '/' ∉ name.data)
    (hvalid : validElem name = true) : validPath name = true := by
  have hlen : name.utf8ByteSize ≤ 255 := by
    simp only [validElem, Bool.and_eq_true, decide_eq_true_eq] at hvalid
    exact hvalid.1
  simp only [validPath, pathElems_noSlash name hslash, List.all_cons, List.all_nil,
    Bool.and_true, Bool.and_eq_true, decide_eq_true_eq]
  exact ⟨by omega, hvalid⟩

theorem osCreate_plain (fs : FS) (cwd : Path) (name : String) (hslash : '/' ∉ name.data)
    (hname : isSpecial name = false) (hvalid : validElem name = true)
    (hcwd : fs.get cwd = some Node.dir)
    (hfree : fs.get (cwd ++ [name]) ≠ some Node.dir) :
    osCreate fs cwd name = some (cwd ++ [name], fs.put (cwd ++ [name]) (Node.file [])) := by
  have hne : name ≠ "" := by
    intro e; rw [e] at hname; simp [isSpecial] at hname
  have hres : resolve fs cwd name = some (cwd ++ [name]) := by
    unfold resolve
    simp [hne, validPath_plain name hslash hvalid, startDir, isRooted_noSlash name hslash, hcwd,
      pathElems_noSlash name hslash, walk, hname]
  unfold osCreate
  rw [hres]
  cases hg : fs.get (cwd ++ [name]) with
  | none => simp [hg]
  | some n =>
    cases n with
    | dir => exact absurd hg hfree
    | file d => simp [hg]

theorem osWriteFile_true (fs : FS) (cwd : Path) (name : String) (data : Bytes)
    (hrel : relativeName name = true) (h : (osWriteFile fs cwd name data).2 = true) (q : Path) :
    (osWriteFile fs cwd name data).1.get q =
      if q = cwd ++ pathElems name then some (Node.file data) else fs.get q := by
  unfold osWriteFile at h ⊢
  cases hc : osCreate fs cwd name with
  | none => rw [hc] at h; simp at h
  | some r =>
    obtain ⟨p, fs1⟩ := r
    obtain ⟨hres, hfs1⟩ := osCreate_some _ _ _ _ _ hc
    have hp := resolve_relative _ _ _ _ hrel hres
    simp only [get_put, hfs1, hp]
    by_cases hq : q = cwd ++ pathElems name <;> simp [hq]

theorem osRename_self (fs : FS) (cwd : Path) (name : String) :
    (osRename fs cwd name name).1 = fs := by
  have hs : (sysRename fs cwd name name).1 = fs := by
    unfold sysRename
    cases hr : resolve fs cwd name with
    | none => rfl
    | some p =>
      simp only []
      cases hg : fs.get p with
      | none => rfl
      | some n => cases n <;> simp
  unfold osRename
  cases hr : resolve fs cwd name with
  | none => exact hs
  | some p =>
    simp only []
    split
    · split
      · rfl
      · simp
    · exact hs

theorem osRename_true (fs : FS) (cwd : Path) (oldname newname : String) (d : Bytes)
    (ho : relativeName oldname = true) (hn : relativeName newname = true)
    (hfile : fs.get (cwd ++ pathElems oldname) = some (Node.file d))
    (hne : pathElems oldname ≠ pathElems newname)
    (h : (osRename fs cwd oldname newname).2 = true) (q : Path) :
    (osRename fs cwd oldname newname).1.get q =
      if q = cwd ++ pathElems newname then some (Node.file d)
      else if q = cwd ++ pathElems oldname then none else fs.get q := by
  have hpne : cwd ++ pathElems oldname ≠ cwd ++ pathElems newname :=
    fun e => hne (List.append_cancel_left e)
  have hnames : newname ≠ oldname := fun e => hne (by rw [e])
  have hsys : (sysRename fs cwd oldname newname).2 = true →
      fs.get (cwd ++ pathElems newname) ≠ some Node.dir →
      (sysRename fs cwd oldname newname).1.get q =
        if q = cwd ++ pathElems newname then some (Node.file d)
        else if q = cwd ++ pathElems oldname then none else fs.get q := by
    intro h2 hnd
    unfold sysRename at h2 ⊢
    cases hro : resolve fs cwd oldname with
    | none => rw [hro] at h2; simp at h2
    | some po =>
      cases hrn : resolve fs cwd newname with
      | none => rw [hro, hrn] at h2; simp at h2
      | some pn =>
        have hpo := resolve_relative _ _ _ _ ho hro
        have hpn := resolve_relative _ _ _ _ hn hrn
        subst hpo hpn
        simp only [hfile, hpne, hnd, ↓reduceIte, get_put, get_del]
  unfold osRename at h ⊢
  cases hrn : resolve fs cwd newname with
  | none =>
    rw [hrn] at h
    simp only [] at h ⊢
    unfold sysRename at h
    rw [hrn] at h
    cases hro : resolve fs cwd oldname <;> rw [hro] at h <;> simp at h
  | some pn =>
    have hpn := resolve_relative _ _ _ _ hn hrn
    rw [hrn] at h
    simp only [] at h ⊢
    by_cases hd : fs.get pn = some Node.dir
    · simp only [hd, ↓reduceIte] at h
      cases hro : resolve fs cwd oldname with
      | none => rw [hro] at h; simp at h
      | some po =>
        have hpo := resolve_relative _ _ _ _ ho hro
        rw [hro] at h
        simp only [] at h
        have hpp : po ≠ pn := by rw [hpo, hpn]; exact hpne
        simp [hpp] at h
    · simp only [hd, ↓reduceIte] at h ⊢
      exact hsys h (by rw [← hpn]; exact hd)

/-! ### Platform resolution -/

theorem supported_pairs (goos arch t : String) (h : resolvePlatform goos arch = Except.ok t) :
    (goos, arch) ∈ [("darwin", "arm64"), ("darwin", "amd64"), ("linux", "arm64"),
      ("linux", "amd64"), ("windows", "amd64")] := by
  revert h
  by_cases h1 : goos = "darwin" <;> by_cases h2 : goos = "linux" <;>
    by_cases h3 : goos = "windows" <;> by_cases a1 : arch = "arm64" <;>
    by_cases a2 : arch = "amd64" <;>
    simp_all [resolvePlatform, platforms, mapLookup]

/-- C1: platform resolution succeeds with tag `tag` exactly for the five
pairs of the table, each with its documented tag; strings are compared as
they are, so no other spelling of an OS or architecture resolves. -/
theorem resolvePlatform_table (goos arch tag : String) :
    resolvePlatform goos arch = Except.ok tag ↔
      (goos, arch, tag) ∈
        [("darwin", "arm64", "osx-arm64"), ("darwin", "amd64", "osx-amd64"),
         ("linux", "arm64", "linux-arm64"), ("linux", "amd64", "linux-amd64"),
         ("windows", "amd64", "windows-mingw")] := by
  by_cases h1 : goos = "darwin" <;> by_cases h2 : goos = "linux" <;>
    by_cases h3 : goos = "windows" <;> by_cases a1 : arch = "arm64" <;>
    by_cases a2 : arch = "amd64" <;>
    simp_all [resolvePlatform, platforms, mapLookup, eq_comm]

/-- C2: resolution fails with the unsupported-platform error exactly when
the OS is no key of the table, and with the unsupported-architecture error
exactly when the OS is a key whose sub-table lacks the architecture, as for
(windows, arm64); the messages are the documented ones; and on either
failure the run ends with status 1 having only logged two lines: no HTTP
request, and the file tree as it was. -/
theorem unsupported_platform_is_fatal (env : Env) (goos arch : String) (w : World) :
    (resolvePlatform goos arch = Except.error (PlatformError.unsupportedPlatform goos) ↔
      goos ∉ mapKeys platforms) ∧
    (resolvePlatform goos arch =
        Except.error (PlatformError.unsupportedArchitecture goos arch) ↔
      ∃ m, (goos, m) ∈ platforms ∧ arch ∉ mapKeys m) ∧
    resolvePlatform "windows" "arm64" =
      Except.error (PlatformError.unsupportedArchitecture "windows" "arm64") ∧
    (PlatformError.unsupportedPlatform goos).message = "unsupported GOOS: " ++ goos ∧
    (PlatformError.unsupportedArchitecture goos arch).message =
      "unsupported GOARCH: " ++ arch ++ " for GOOS: " ++ goos ∧
    (∀ e, resolvePlatform goos arch = Except.error e →
      main env goos arch w =
        (⟨w.fs, w.trace ++ [Event.log ("Detected GOOS: " ++ goos ++ ", " ++ arch),
            Event.log e.message], w.defers⟩, 1)) := by
  refine ⟨?_, ?_, rfl, sprintf_unsupportedGoos goos, sprintf_unsupportedGoarch goos arch, ?_⟩
  · by_cases h1 : goos = "darwin" <;> by_cases h2 : goos = "linux" <;>
      by_cases h3 : goos = "windows" <;> by_cases a1 : arch = "arm64" <;>
      by_cases a2 : arch = "amd64" <;>
      simp_all [resolvePlatform, platforms, mapLookup, mapKeys]
  · by_cases h1 : goos = "darwin" <;> by_cases h2 : goos = "linux" <;>
      by_cases h3 : goos = "windows" <;> by_cases a1 : arch = "arm64" <;>
      by_cases a2 : arch = "amd64" <;>
      simp_all [resolvePlatform, platforms, mapLookup, mapKeys]
  · intro e he
    simp [main, fetchAndExtract, he, fatal, World.emit, sprintf_detected]

/-- Witness for C2 at (windows, arm64). -/
theorem unsupported_platform_is_fatal_witness :
    main sampleEnv "windows" "arm64" (World.start sampleFS) =
      (⟨sampleFS, [Event.log "Detected GOOS: windows, arm64",
          Event.log "unsupported GOARCH: arm64 for GOOS: windows"], []⟩, 1) :=
  (unsupported_platform_is_fatal sampleEnv "windows" "arm64" (World.start sampleFS)).2.2.2.2.2
    (PlatformError.unsupportedArchitecture "windows" "arm64") rfl

/-! ### The download request -/

theorem requestedURLs_emit (w : World) (e : Event) :
    requestedURLs (w.emit e).trace = requestedURLs w.trace ++ (e.url).toList := by
  cases h : e.url <;> simp [requestedURLs, World.emit, List.filterMap_append, h]

theorem urls_extractEntry (env : Env) (i : Nat) (f : ZipEntry) (w : World) :
    requestedURLs (endState (extractEntry env i f w)).trace = requestedURLs w.trace := by
  unfold extractEntry
  split
  · rfl
  split
  · simp [endState, fatal, requestedURLs_emit, Event.url]
  · simp only []
    split
    · simp [endState, fatal, requestedURLs_emit, Event.url, World.setFs, World.pushDefer]
    · split <;> simp [endState, fatal, requestedURLs_emit, Event.url, World.setFs, World.pushDefer]

theorem urls_extractLoop (env : Env) (fs : List ZipEntry) :
    ∀ (i : Nat) (w : World),
      requestedURLs (endState (extractLoop env i fs w)).trace = requestedURLs w.trace := by
  induction fs with
  | nil => intro i w; rfl
  | cons f rest ih =>
    intro i w
    have h := urls_extractEntry env i f w
    unfold extractLoop
    cases hx : extractEntry env i f w with
    | error w1 => rw [hx] at h; simpa [endState] using h
    | ok w1 =>
      rw [hx] at h
      simp only []
      rw [ih (i + 1) w1]
      simpa [endState] using h

theorem urls_extract (env : Env) (z : String) (w : World) :
    requestedURLs (endState (extract env z w)).trace = requestedURLs w.trace := by
  unfold extract
  simp only []
  split
  · simp [endState, fatal, requestedURLs_emit, Event.url]
  · split
    · simp [endState, fatal, requestedURLs_emit, Event.url]
    · rename_i files _
      have h := urls_extractLoop env files 0
        ((((w.emit (Event.log "Download complete, extracting zip file.")).emit
          (Event.openZip z true))).pushDefer Handle.zipReader)
      split
      · rename_i w3 hx
        rw [hx] at h
        simpa [endState, requestedURLs_emit, Event.url, World.pushDefer] using h
      · rename_i w3 hx
        rw [hx] at h
        simpa [endState, requestedURLs_emit, Event.url, World.pushDefer, World.setFs] using h

theorem urls_finalize (env : Env) (goos arch : String) (w : World) :
    requestedURLs (finalize env goos arch w).runDefers.trace = requestedURLs w.trace := by
  simp [finalize, World.runDefers, World.emit, World.setFs, requestedURLs,
    List.filterMap_append, Event.url, List.filterMap_map]

theorem urls_download_error (env : Env) (t : String) (w w1 : World)
    (h : download env t w = Except.error w1) :
    requestedURLs w1.trace = requestedURLs w.trace ++ [sprintf releaseURL [version, t]] := by
  unfold download at h
  simp only [] at h
  split at h
  · cases h
    simp [fatal, requestedURLs_emit, Event.url]
  · split at h
    · cases h
      simp [fatal, requestedURLs_emit, Event.url, World.pushDefer]
    · split at h
      · cases h
      · cases h
        simp [fatal, requestedURLs_emit, Event.url, World.pushDefer, World.setFs]

theorem urls_download_ok (env : Env) (t : String) (w w1 : World) (z : String)
    (h : download env t w = Except.ok (w1, z)) :
    requestedURLs w1.trace = requestedURLs w.trace ++ [sprintf releaseURL [version, t]] := by
  unfold download at h
  simp only [] at h
  split at h
  · cases h
  · split at h
    · cases h
    · split at h
      · cases h
        simp [requestedURLs_emit, Event.url, World.pushDefer, World.setFs]
      · cases h

/-- C3: for a supported pair with tag `t`, a run requests exactly one URL,
the release template filled with version 1.2.0 and `t`. -/
theorem main_requests_release_url (env : Env) (goos arch t : String) (fs : FS)
    (h : resolvePlatform goos arch = Except.ok t) :
    requestedURLs (main env goos arch (World.start fs)).1.trace =
      ["https://github.com/duckdb/duckdb/releases/download/v1.2.0/static-lib-" ++ t ++ ".zip"] := by
  rw [← sprintf_releaseURL]
  have h0 : requestedURLs ((World.start fs).emit
      (Event.log (logLine (sprintf "Detected GOOS: %s, %s\n" [goos, arch])))).trace = [] := by
    simp [requestedURLs, World.emit, World.start, Event.url]
  unfold main fetchAndExtract
  simp only [h]
  cases hd : download env t ((World.start fs).emit
      (Event.log (logLine (sprintf "Detected GOOS: %s, %s\n" [goos, arch])))) with
  | error w2 =>
    have h2 := urls_download_error env t _ w2 hd
    simpa [h0] using h2
  | ok r =>
    obtain ⟨w2, z⟩ := r
    have h2 := urls_download_ok env t _ w2 z hd
    have h3 := urls_extract env z w2
    simp only []
    cases hx : extract env z w2 with
    | error w3 =>
      rw [hx] at h3
      simp only [endState] at h3
      simp [h3, h2, h0]
    | ok w3 =>
      rw [hx] at h3
      simp only [endState] at h3
      simp [urls_finalize, h3, h2, h0]

/-- Witness for C3 at (linux, amd64). -/
theorem main_requests_release_url_witness :
    resolvePlatform "linux" "amd64" = Except.ok "linux-amd64" ∧
    requestedURLs (main sampleEnv "linux" "amd64" (World.start sampleFS)).1.trace =
      ["https://github.com/duckdb/duckdb/releases/download/v1.2.0/static-lib-" ++
        "linux-amd64" ++ ".zip"] :=
  ⟨rfl, main_requests_release_url sampleEnv "linux" "amd64" "linux-amd64" sampleFS rfl⟩

/-- C7: when the transport call of the GET fails, the run ends with status 1
after the request and the log lines only: the file tree is the one the run
started with, so no temporary file, extracted file or `deps` directory is
made. -/
theorem transport_failure_is_fatal (env : Env) (goos arch t err : String) (fs : FS)
    (h : resolvePlatform goos arch = Except.ok t)
    (hget : env.httpGet (sprintf releaseURL [version, t]) = Except.error err) :
    main env goos arch (World.start fs) =
      (⟨fs, [Event.log ("Detected GOOS: " ++ goos ++ ", " ++ arch),
          Event.log ("Downloading from " ++ sprintf releaseURL [version, t] ++ "..."),
          Event.httpGet (sprintf releaseURL [version, t]) false,
          Event.log err], []⟩, 1) := by
  simp [main, fetchAndExtract, h, download, hget, fatal, World.emit, World.start,
    sprintf_detected, sprintf_downloading]

/-- Witness for C7: a refused connection for (linux, amd64). -/
theorem transport_failure_is_fatal_witness :
    main refusedEnv "linux" "amd64" (World.start sampleFS) =
      (⟨sampleFS, [Event.log ("Detected GOOS: " ++ "linux" ++ ", " ++ "amd64"),
          Event.log ("Downloading from " ++ sprintf releaseURL [version, "linux-amd64"] ++ "..."),
          Event.httpGet (sprintf releaseURL [version, "linux-amd64"]) false,
          Event.log "connection refused"], []⟩, 1) :=
  transport_failure_is_fatal refusedEnv "linux" "amd64" "linux-amd64" "connection refused"
    sampleFS rfl rfl

/-! ### Extraction -/

theorem extractEntry_dir (env : Env) (i : Nat) (f : ZipEntry) (w : World)
    (hd : f.isDir = true) : extractEntry env i f w = Except.ok w := by
  simp [extractEntry, hd]

theorem extractEntry_frame (env : Env) (i : Nat) (f : ZipEntry) (w : World) (p : Path)
    (hrel : relativeName f.name = true) (hp : p ≠ env.cwd ++ pathElems f.name) (d : Bytes) :
    (endState (extractEntry env i f w)).fs.get p = some (Node.file d) ↔
      w.fs.get p = some (Node.file d) := by
  unfold extractEntry
  split
  · exact Iff.rfl
  split
  · exact Iff.rfl
  · simp only []
    split
    · simp only [endState, fatal, World.emit, World.setFs, World.pushDefer]
      exact osMkdirAll_file _ _ _ _ _
    · rename_i p0 fs1 hc
      obtain ⟨hres, hfs1⟩ := osCreate_some _ _ _ _ _ hc
      have hp0 := resolve_relative _ _ _ _ hrel hres
      have hne : p ≠ p0 := by rw [hp0]; exact hp
      have key : (fs1.put p0 (Node.file (ioCopy f.data f.readFault).1)).get p =
          some (Node.file d) ↔ w.fs.get p = some (Node.file d) := by
        rw [get_put, if_neg hne, hfs1, get_put, if_neg hne]
        simp only [World.emit, World.setFs, World.pushDefer]
        exact osMkdirAll_file _ _ _ _ _
      split
      · simpa [endState, fatal, World.emit, World.setFs, World.pushDefer] using key
      · simpa [endState, fatal, World.emit, World.setFs, World.pushDefer] using key

theorem extractEntry_ok (env : Env) (i : Nat) (f : ZipEntry) (w w1 : World)
    (hf : f.isDir = false) (hrel : relativeName f.name = true)
    (h : extractEntry env i f w = Except.ok w1) :
    w1.fs.get (env.cwd ++ pathElems f.name) = some (Node.file f.data) := by
  unfold extractEntry at h
  simp only [hf, Bool.false_eq_true, ↓reduceIte] at h
  split at h
  · cases h
  · split at h
    · cases h
    · rename_i p0 fs1 hc
      obtain ⟨hres, _⟩ := osCreate_some _ _ _ _ _ hc
      have hp0 := resolve_relative _ _ _ _ hrel hres
      split at h
      · rename_i hcopy
        cases h
        have hdata : (ioCopy f.data f.readFault).1 = f.data := by
          cases hr : f.readFault with
          | none => rfl
          | some n => rw [hr] at hcopy; simp [ioCopy] at hcopy
        simp only [World.emit, World.setFs, get_put, hp0, hdata, ↓reduceIte]
      · cases h

theorem extractEntry_created (env : Env) (i : Nat) (f : ZipEntry) (w w1 : World)
    (hf : f.isDir = false) (h : extractEntry env i f w = Except.ok w1) :
    createdNames w1.trace = createdNames w.trace ++ [f.name] := by
  unfold extractEntry at h
  simp only [hf, Bool.false_eq_true, ↓reduceIte] at h
  split at h
  · cases h
  · split at h
    · cases h
    · split at h
      · cases h
        simp [createdNames, World.emit, World.setFs, World.pushDefer, List.filterMap_append]
      · cases h

theorem extractEntry_error (env : Env) (i : Nat) (f : ZipEntry) (w w1 : World)
    (hread : f.isDir = false → f.readable = true)
    (h : extractEntry env i f w = Except.error w1) :
    ∃ e ∈ w1.trace, e.createFailed = true := by
  unfold extractEntry at h
  split at h
  · cases h
  · rename_i hd
    have hr := hread (by simpa using hd)
    simp only [ZipEntry.readable, Bool.and_eq_true, Bool.not_eq_eq_eq_not, Bool.not_true,
      Option.isNone_iff_eq_none] at hr
    simp only [hr.1, Bool.false_eq_true, ↓reduceIte, hr.2, ioCopy] at h
    split at h
    · cases h
      exact ⟨Event.create i f.name false, by simp [fatal, World.emit], rfl⟩
    · cases h

theorem extractLoop_frame (env : Env) (files : List ZipEntry) (p : Path) (d : Bytes) :
    ∀ (i : Nat) (w : World),
      (∀ f ∈ files, f.isDir = false → relativeName f.name = true) →
      (∀ f ∈ files, f.isDir = false → p ≠ env.cwd ++ pathElems f.name) →
      ((endState (extractLoop env i files w)).fs.get p = some (Node.file d) ↔
        w.fs.get p = some (Node.file d)) := by
  induction files with
  | nil => intro i w _ _; exact Iff.rfl
  | cons f rest ih =>
    intro i w hrel hp
    have hstep : (endState (extractEntry env i f w)).fs.get p = some (Node.file d) ↔
        w.fs.get p = some (Node.file d) := by
      cases hd : f.isDir with
      | true => rw [extractEntry_dir env i f w hd]; exact Iff.rfl
      | false =>
        exact extractEntry_frame env i f w p (hrel f (List.mem_cons_self _ _) hd)
          (hp f (List.mem_cons_self _ _) hd) d
    unfold extractLoop
    cases hx : extractEntry env i f w with
    | error w1 => rw [hx] at hstep; exact hstep
    | ok w1 =>
      rw [hx] at hstep
      simp only []
      rw [ih (i + 1) w1 (fun g hg => hrel g (List.mem_cons_of_mem _ hg))
        (fun g hg => hp g (List.mem_cons_of_mem _ hg))]
      exact hstep

theorem extractLoop_created (env : Env) (files : List ZipEntry) :
    ∀ (i : Nat) (w w1 : World), extractLoop env i files w = Except.ok w1 →
      createdNames w1.trace = createdNames w.trace ++ (fileEntries files).map ZipEntry.name := by
  induction files with
  | nil => intro i w w1 h; cases h; simp [fileEntries]
  | cons f rest ih =>
    intro i w w1 h
    unfold extractLoop at h
    cases hx : extractEntry env i f w with
    | error w2 => rw [hx] at h; cases h
    | ok w2 =>
      rw [hx] at h
      have h2 := ih (i + 1) w2 w1 h
      cases hd : f.isDir with
      | true =>
        rw [extractEntry_dir env i f w hd] at hx
        cases hx
        simpa [fileEntries, hd] using h2
      | false =>
        rw [h2, extractEntry_created env i f w w2 hd hx]
        simp [fileEntries, hd]

theorem extractLoop_content (env : Env) (files : List ZipEntry) :
    ∀ (i : Nat) (w w1 : World),
      (∀ f ∈ files, f.isDir = false → relativeName f.name = true) →
      ((fileEntries files).map ZipEntry.name).Nodup →
      extractLoop env i files w = Except.ok w1 →
      ∀ f ∈ files, f.isDir = false →
        w1.fs.get (env.cwd ++ pathElems f.name) = some (Node.file f.data) := by
  induction files with
  | nil => intro i w w1 _ _ _ f hf; cases hf
  | cons g rest ih =>
    intro i w w1 hrel hnd h f hf hfd
    unfold extractLoop at h
    cases hx : extractEntry env i g w with
    | error w2 => rw [hx] at h; cases h
    | ok w2 =>
      rw [hx] at h
      have hrel1 : ∀ f ∈ rest, f.isDir = false → relativeName f.name = true :=
        fun f hf => hrel f (List.mem_cons_of_mem _ hf)
      cases hgd : g.isDir with
      | true =>
        have hnd1 : ((fileEntries rest).map ZipEntry.name).Nodup := by
          simpa [fileEntries, hgd] using hnd
        rcases List.mem_cons.mp hf with hfg | hfr
        · subst hfg; rw [hgd] at hfd; cases hfd
        · exact ih (i + 1) w2 w1 hrel1 hnd1 h f hfr hfd
      | false =>
        have hnd0 : g.name ∉ (fileEntries rest).map ZipEntry.name ∧
            ((fileEntries rest).map ZipEntry.name).Nodup := by
          simpa [fileEntries, hgd] using hnd
        rcases List.mem_cons.mp hf with hfg | hfr
        · subst hfg
          have hout : ∀ e ∈ rest, e.isDir = false →
              env.cwd ++ pathElems f.name ≠ env.cwd ++ pathElems e.name := by
            intro e he hed heq
            have hn : f.name = e.name :=
              pathElems_injective _ _ (List.append_cancel_left heq)
            apply hnd0.1
            rw [hn]
            exact List.mem_map.mpr ⟨e, by simp [fileEntries, he, hed], rfl⟩
          have hfr := (extractLoop_frame env rest (env.cwd ++ pathElems f.name) f.data
            (i + 1) w2 hrel1 hout).mpr
            (extractEntry_ok env i f w w2 hfd (hrel f (List.mem_cons_self _ _) hfd) hx)
          have h1 : extractLoop env (i + 1) rest w2 = Except.ok w1 := h
          rw [h1] at hfr
          exact hfr
        · exact ih (i + 1) w2 w1 hrel1 hnd0.2 h f hfr hfd

theorem extractLoop_succeeds (env : Env) (files : List ZipEntry) :
    ∀ (i : Nat) (w : World),
      (∀ f ∈ files, f.isDir = false → f.readable = true) →
      (∀ e ∈ (endState (extractLoop env i files w)).trace, e.createFailed = false) →
      ∃ w1, extractLoop env i files w = Except.ok w1 := by
  induction files with
  | nil => intro i w _ _; exact ⟨w, rfl⟩
  | cons f rest ih =>
    intro i w hread hc
    unfold extractLoop at hc ⊢
    cases hx : extractEntry env i f w with
    | error w2 =>
      rw [hx] at hc
      obtain ⟨e, he, hf⟩ := extractEntry_error env i f w w2
        (hread f (List.mem_cons_self _ _)) hx
      have := hc e he
      rw [hf] at this
      cases this
    | ok w2 =>
      rw [hx] at hc
      exact ih (i + 1) w2 (fun g hg => hread g (List.mem_cons_of_mem _ hg)) hc

/-- C4: for an archive whose file entries are readable and carry pairwise
distinct relative path names, extracted where no `os.Create` fails, the
extraction completes, and afterwards every file entry's path below the
working directory holds exactly that entry's bytes, the files created are
exactly the file entries, in order, and at every other location the files
are what they were: no file is made for a directory entry. -/
theorem extraction_reproduces_archive (env : Env) (files : List ZipEntry) (w : World)
    (hrel : ∀ f ∈ files, f.isDir = false → relativeName f.name = true)
    (hread : ∀ f ∈ files, f.isDir = false → f.readable = true)
    (hnd : ((fileEntries files).map ZipEntry.name).Nodup)
    (hcreate : ∀ e ∈ (endState (extractLoop env 0 files w)).trace, e.createFailed = false) :
    ∃ w1, extractLoop env 0 files w = Except.ok w1 ∧
      (∀ f ∈ files, f.isDir = false →
        w1.fs.get (env.cwd ++ pathElems f.name) = some (Node.file f.data)) ∧
      createdNames w1.trace = createdNames w.trace ++ (fileEntries files).map ZipEntry.name ∧
      (∀ p d, p ∉ (fileEntries files).map (fun f => env.cwd ++ pathElems f.name) →
        (w1.fs.get p = some (Node.file d) ↔ w.fs.get p = some (Node.file d))) := by
  obtain ⟨w1, hok⟩ := extractLoop_succeeds env files 0 w hread hcreate
  refine ⟨w1, hok, extractLoop_content env files 0 w w1 hrel hnd hok,
    extractLoop_created env files 0 w w1 hok, ?_⟩
  intro p d hp
  have h := extractLoop_frame env files p d 0 w hrel (by
    intro f hf hfd heq
    apply hp
    exact List.mem_map.mpr ⟨f, by simp [fileEntries, hf, hfd], heq.symm⟩)
  rw [hok] at h
  exact h

/-- Witness for C4: `sampleArchive` has a directory entry and a file two
directories down, neither directory present beforehand. -/
theorem extraction_reproduces_archive_witness :
    ∃ w1, extractLoop sampleEnv 0 sampleArchive (World.start sampleFS) = Except.ok w1 ∧
      (∀ f ∈ sampleArchive, f.isDir = false →
        w1.fs.get (sampleEnv.cwd ++ pathElems f.name) = some (Node.file f.data)) ∧
      createdNames w1.trace = createdNames (World.start sampleFS).trace ++
        (fileEntries sampleArchive).map ZipEntry.name ∧
      (∀ p d, p ∉ (fileEntries sampleArchive).map (fun f => sampleEnv.cwd ++ pathElems f.name) →
        (w1.fs.get p = some (Node.file d) ↔
          (World.start sampleFS).fs.get p = some (Node.file d))) :=
  extraction_reproduces_archive sampleEnv sampleArchive (World.start sampleFS)
    (by decide) (by decide) (by decide) (by decide)

/-- Counterexample to C8: the entry `../notes` overwrites a file next to the
working directory `/home/proj`, and the rooted entry `/tmp/owned` creates a
file under `/tmp`. -/
theorem extraction_escapes_cwd :
    List.isPrefixOf slipEnv.cwd ["home", "notes"] = false ∧
    slipFS.get ["home", "notes"] = some (Node.file [1]) ∧
    (main slipEnv "linux" "amd64" (World.start slipFS)).1.fs.get ["home", "notes"] =
      some (Node.file [6]) ∧
    List.isPrefixOf slipEnv.cwd ["tmp", "owned"] = false ∧
    slipFS.get ["tmp", "owned"] = none ∧
    (main slipEnv "linux" "amd64" (World.start slipFS)).1.fs.get ["tmp", "owned"] =
      some (Node.file [7]) := by
  decide

/-- C8 as amended: when every file entry's name is a relative path of
ordinary elements (not rooted, no empty, `.` or `..` element), extraction,
complete or cut short by a fatal error, creates or overwrites files only at
the entries' paths below the working directory; every file outside the
working directory is what it was. -/
theorem extraction_stays_in_cwd (env : Env) (files : List ZipEntry) (i : Nat) (w : World)
    (hrel : ∀ f ∈ files, f.isDir = false → relativeName f.name = true) :
    (∀ p d, p ∉ (fileEntries files).map (fun f => env.cwd ++ pathElems f.name) →
      ((endState (extractLoop env i files w)).fs.get p = some (Node.file d) ↔
        w.fs.get p = some (Node.file d))) ∧
    (∀ p d, env.cwd.isPrefixOf p = false →
      ((endState (extractLoop env i files w)).fs.get p = some (Node.file d) ↔
        w.fs.get p = some (Node.file d))) := by
  constructor
  · intro p d hp
    refine extractLoop_frame env files p d i w hrel ?_
    intro f hf hfd heq
    apply hp
    exact List.mem_map.mpr ⟨f, by simp [fileEntries, hf, hfd], heq.symm⟩
  · intro p d hp
    refine extractLoop_frame env files p d i w hrel ?_
    intro f _ _ heq
    rw [heq, isPrefixOf_append] at hp
    cases hp

/-- Witness for C8 as amended: extracting `sampleArchive` leaves the
location `/home/notes` without a file. -/
theorem extraction_stays_in_cwd_witness :
    (endState (extractLoop sampleEnv 0 sampleArchive (World.start sampleFS))).fs.get
        ["home", "notes"] = some (Node.file [1]) ↔
      (World.start sampleFS).fs.get ["home", "notes"] = some (Node.file [1]) :=
  (extraction_stays_in_cwd sampleEnv sampleArchive 0 (World.start sampleFS) (by decide)).2
    ["home", "notes"] [1] (by decide)

/-- C10: for a readable file entry whose name has no directory part and is
an acceptable file name, extracted in an existing working directory where
that name is not a directory, extraction of the entry succeeds and its bytes
stand at that name.  The parent handed to `os.MkdirAll` is `.`, not the
empty string; the call finds it by `Stat` and returns without calling
`Mkdir`, so no directory creation is attempted and no location other than
the file changes. -/
theorem plain_name_entry_extracts (env : Env) (i : Nat) (f : ZipEntry) (w : World)
    (hf : f.isDir = false) (hopen : f.openFails = false) (hread : f.readFault = none)
    (hslash : '/' ∉ f.name.data) (hname : isSpecial f.name = false)
    (hvalid : validElem f.name = true)
    (hcwd : w.fs.get env.cwd = some Node.dir)
    (hfree : w.fs.get (env.cwd ++ [f.name]) ≠ some Node.dir) :
    filepathDir f.name = "." ∧
    osMkdirAll w.fs env.cwd "." = (w.fs, true, []) ∧
    ∃ w1, extractEntry env i f w = Except.ok w1 ∧
      w1.trace = w.trace ++ [Event.openEntry i true, Event.mkdirAll "." [] true,
        Event.create i f.name true, Event.copy (Handle.dstFile i) true,
        Event.close (Handle.dstFile i)] ∧
      mkdirCalls w1.trace = mkdirCalls w.trace ∧
      w1.fs.get (env.cwd ++ [f.name]) = some (Node.file f.data) ∧
      ∀ p, p ≠ env.cwd ++ [f.name] → w1.fs.get p = w.fs.get p := by
  have hdir := filepathDir_noSlash f.name hslash
  have hmk := osMkdirAll_dot w.fs env.cwd hcwd
  have hcr := osCreate_plain w.fs env.cwd f.name hslash hname hvalid hcwd hfree
  refine ⟨hdir, hmk, ?_⟩
  unfold extractEntry
  simp only [hf, hopen, hread, hdir, ioCopy, World.emit, World.setFs, World.pushDefer, hmk,
    hcr, Bool.false_eq_true, ↓reduceIte]
  refine ⟨_, rfl, by simp, ?_, ?_, ?_⟩
  · simp [mkdirCalls, List.flatMap_append]
  · simp [get_put]
  · intro p hp
    simp [get_put, hp]

/-- Witness for C10: the entry `duckdb.h` in `/home/proj`. -/
theorem plain_name_entry_extracts_witness :
    ∃ w1, extractEntry sampleEnv 0 ⟨"duckdb.h", false, [47, 47], false, none⟩
        (World.start sampleFS) = Except.ok w1 ∧
      w1.trace = (World.start sampleFS).trace ++ [Event.openEntry 0 true,
        Event.mkdirAll "." [] true, Event.create 0 "duckdb.h" true,
        Event.copy (Handle.dstFile 0) true, Event.close (Handle.dstFile 0)] ∧
      mkdirCalls w1.trace = mkdirCalls (World.start sampleFS).trace ∧
      w1.fs.get (sampleEnv.cwd ++ ["duckdb.h"]) = some (Node.file [47, 47]) ∧
      ∀ p, p ≠ sampleEnv.cwd ++ ["duckdb.h"] → w1.fs.get p = (World.start sampleFS).fs.get p :=
  (plain_name_entry_extracts sampleEnv 0 ⟨"duckdb.h", false, [47, 47], false, none⟩
    (World.start sampleFS) rfl rfl rfl (by decide) (by decide) (by decide) (by decide)
    (by decide)).2.2

/-! ### Finalization -/

theorem runDefers_fs (w : World) : w.runDefers.fs = w.fs := rfl

theorem finalize_fs (env : Env) (goos arch x : String) (w : World) (d : Bytes)
    (hm : pathElems (filepathJoin [sprintf "deps/%s_%s" [goos, arch], "vendor.go"]) =
      ["deps", x, "vendor.go"])
    (hl : pathElems (filepathJoin [sprintf "deps/%s_%s" [goos, arch], "libduckdb.a"]) =
      ["deps", x, "libduckdb.a"])
    (hx : isSpecial x = false)
    (hlib : w.fs.get (env.cwd ++ ["libduckdb_bundle.a"]) = some (Node.file d))
    (hok : ∀ e ∈ (finalize env goos arch w).trace, e.stagingFailed = false) :
    (finalize env goos arch w).fs.get (env.cwd ++ ["deps", x, "vendor.go"]) =
        some (Node.file (toBytes (sprintf "package %s_%s" [goos, arch]))) ∧
    (finalize env goos arch w).fs.get (env.cwd ++ ["deps", x, "libduckdb.a"]) =
        some (Node.file d) := by
  have hrelm : relativeName (filepathJoin [sprintf "deps/%s_%s" [goos, arch], "vendor.go"])
      = true := by
    simp [relativeName, hm, hx]; decide
  have hrell : relativeName (filepathJoin [sprintf "deps/%s_%s" [goos, arch], "libduckdb.a"])
      = true := by
    simp [relativeName, hl, hx]; decide
  have hrelb : relativeName "libduckdb_bundle.a" = true := by decide
  have hpb : pathElems "libduckdb_bundle.a" = ["libduckdb_bundle.a"] := by decide
  simp only [finalize, World.emit, World.setFs, List.mem_append, List.mem_singleton] at hok ⊢
  have h2 := hok (Event.writeFile _ _) (Or.inl (Or.inl (Or.inl (Or.inr rfl))))
  have h3 := hok (Event.rename "libduckdb_bundle.a" _ _) (Or.inl (Or.inl (Or.inr rfl)))
  simp only [Event.stagingFailed, Bool.not_eq_eq_eq_not, Bool.not_false, decide_True,
    Bool.and_true] at h2 h3
  rw [osRename_self]
  have hw := osWriteFile_true _ _ _ _ hrelm h2
  have hfile : (osWriteFile (osMkdirAll w.fs env.cwd (sprintf "deps/%s_%s" [goos, arch])).1
      env.cwd (filepathJoin [sprintf "deps/%s_%s" [goos, arch], "vendor.go"])
      (toBytes (sprintf "package %s_%s" [goos, arch]))).1.get
        (env.cwd ++ pathElems "libduckdb_bundle.a") = some (Node.file d) := by
    rw [hw, hm, hpb, if_neg (by simp), osMkdirAll_file]
    exact hlib
  have hr := osRename_true _ _ _ _ d hrelb hrell hfile (by rw [hpb, hl]; simp) h3
  constructor
  · rw [hr, hl, hpb, if_neg (by simp), if_neg (by simp), hw, hm, if_pos rfl]
  · rw [hr, hl, if_pos rfl]

/-- C5: for a supported pair, after a run that reached finalization and in
which the write of the marker and the move of the library did not fail, the
marker file `deps/<os>_<arch>/vendor.go` holds exactly the bytes of the
text `package <os>_<arch>`, one byte per character, each the character's
code, and `deps/<os>_<arch>/libduckdb.a` holds the bytes that
`libduckdb_bundle.a` held in the working directory when extraction was
done. -/
theorem successful_run_stages_library (env : Env) (goos arch t : String) (fs : FS)
    (w1 : World) (d : Bytes)
    (hsup : resolvePlatform goos arch = Except.ok t)
    (hext : fetchAndExtract env goos arch (World.start fs) = Except.ok w1)
    (hlib : w1.fs.get (env.cwd ++ ["libduckdb_bundle.a"]) = some (Node.file d))
    (hstaged : ∀ e ∈ (main env goos arch (World.start fs)).1.trace,
      e.stagingFailed = false) :
    (main env goos arch (World.start fs)).2 = 0 ∧
    (main env goos arch (World.start fs)).1.fs.get
        (env.cwd ++ ["deps", goos ++ "_" ++ arch, "vendor.go"]) =
      some (Node.file
        (("package " ++ goos ++ "_" ++ arch).data.map (fun c => UInt8.ofNat c.toNat))) ∧
    (main env goos arch (World.start fs)).1.fs.get
        (env.cwd ++ ["deps", goos ++ "_" ++ arch, "libduckdb.a"]) = some (Node.file d) := by
  have hmain : main env goos arch (World.start fs) =
      ((finalize env goos arch w1).runDefers, 0) := by
    simp [main, hext]
  rw [hmain] at hstaged ⊢
  have hok1 : ∀ e ∈ (finalize env goos arch w1).trace, e.stagingFailed = false := by
    intro e he
    apply hstaged e
    simp only [World.runDefers, List.mem_append]
    exact Or.inl he
  refine ⟨rfl, ?_⟩
  simp only [runDefers_fs]
  have hall : ∀ x : String,
      pathElems (filepathJoin [sprintf "deps/%s_%s" [goos, arch], "vendor.go"]) =
        ["deps", x, "vendor.go"] →
      pathElems (filepathJoin [sprintf "deps/%s_%s" [goos, arch], "libduckdb.a"]) =
        ["deps", x, "libduckdb.a"] →
      isSpecial x = false → x = goos ++ "_" ++ arch →
      toBytes (sprintf "package %s_%s" [goos, arch]) =
        ("package " ++ goos ++ "_" ++ arch).data.map (fun c => UInt8.ofNat c.toNat) →
      (finalize env goos arch w1).fs.get (env.cwd ++ ["deps", goos ++ "_" ++ arch, "vendor.go"]) =
        some (Node.file
          (("package " ++ goos ++ "_" ++ arch).data.map (fun c => UInt8.ofNat c.toNat))) ∧
      (finalize env goos arch w1).fs.get
        (env.cwd ++ ["deps", goos ++ "_" ++ arch, "libduckdb.a"]) = some (Node.file d) := by
    intro x hm hl hx hxe hb
    rw [← hxe, ← hb]
    exact finalize_fs env goos arch x w1 d hm hl hx hlib hok1
  have hp := supported_pairs goos arch t hsup
  simp only [List.mem_cons, Prod.mk.injEq, List.mem_singleton, List.not_mem_nil, or_false] at hp
  rcases hp with ⟨rfl, rfl⟩ | ⟨rfl, rfl⟩ | ⟨rfl, rfl⟩ | ⟨rfl, rfl⟩ | ⟨rfl, rfl⟩
  · exact hall "darwin_arm64" (by decide) (by decide) (by decide) (by decide) (by decide)
  · exact hall "darwin_amd64" (by decide) (by decide) (by decide) (by decide) (by decide)
  · exact hall "linux_arm64" (by decide) (by decide) (by decide) (by decide) (by decide)
  · exact hall "linux_amd64" (by decide) (by decide) (by decide) (by decide) (by decide)
  · exact hall "windows_amd64" (by decide) (by decide) (by decide) (by decide) (by decide)

/-- Witness for C5: the run on `sampleEnv` for (linux, amd64); the marker
holds the nineteen bytes of `package linux_amd64`. -/
theorem successful_run_stages_library_witness :
    (main sampleEnv "linux" "amd64" (World.start sampleFS)).2 = 0 ∧
    (main sampleEnv "linux" "amd64" (World.start sampleFS)).1.fs.get
        ["home", "proj", "deps", "linux_amd64", "vendor.go"] =
      some (Node.file [112, 97, 99, 107, 97, 103, 101, 32, 108, 105, 110, 117, 120, 95, 97,
        109, 100, 54, 52]) ∧
    (main sampleEnv "linux" "amd64" (World.start sampleFS)).1.fs.get
        ["home", "proj", "deps", "linux_amd64", "libduckdb.a"] =
      some (Node.file [33, 60, 97]) :=
  successful_run_stages_library sampleEnv "linux" "amd64" "linux-amd64" sampleFS
    (endState (fetchAndExtract sampleEnv "linux" "amd64" (World.start sampleFS))) [33, 60, 97]
    rfl rfl (by decide) (by decide)

/-- Counterexample to C6: with an archive that holds no
`libduckdb_bundle.a` the move of the library fails, and the run still
reports completion and ends with status 0. -/
theorem rename_failure_not_fatal :
    (main headerOnlyEnv "linux" "amd64" (World.start sampleFS)).2 = 0 ∧
    Event.rename "libduckdb_bundle.a" "deps/linux_amd64/libduckdb.a" false ∈
      (main headerOnlyEnv "linux" "amd64" (World.start sampleFS)).1.trace ∧
    Event.log "Setup process completed." ∈
      (main headerOnlyEnv "linux" "amd64" (World.start sampleFS)).1.trace := by
  decide

/-- C6 as amended: the exit status is 1 exactly when a step before
finalization is fatal; once finalization is reached the run reports
completion and ends with status 0, whatever the four finalization calls
return. -/
theorem main_exit_status (env : Env) (goos arch : String) (w : World) :
    (∀ w1, fetchAndExtract env goos arch w = Except.error w1 →
      main env goos arch w = (w1, 1)) ∧
    (∀ w1, fetchAndExtract env goos arch w = Except.ok w1 →
      (main env goos arch w).2 = 0 ∧
      Event.log "Setup process completed." ∈ (main env goos arch w).1.trace) := by
  constructor
  · intro w1 h
    simp [main, h]
  · intro w1 h
    simp [main, h, finalize, World.runDefers, World.emit, World.setFs]

/-- Witness for C6 as amended: the run on the header-only archive. -/
theorem main_exit_status_witness :
    (main headerOnlyEnv "linux" "amd64" (World.start sampleFS)).2 = 0 ∧
    Event.log "Setup process completed." ∈
      (main headerOnlyEnv "linux" "amd64" (World.start sampleFS)).1.trace :=
  (main_exit_status headerOnlyEnv "linux" "amd64" (World.start sampleFS)).2
    (endState (fetchAndExtract headerOnlyEnv "linux" "amd64" (World.start sampleFS))) rfl

/-! ### Resources -/

theorem accounted_step (w : World) (evs : List Event) (ds : List Handle) (fs : FS)
    (hw : Accounted w)
    (hfold : evs.foldl stepOpen (some w.defers) = some (ds ++ w.defers))
    (hnew : ∀ h ∈ openedHandles evs, h ∈ closedHandles evs ∨ h ∈ ds) :
    Accounted ⟨fs, w.trace ++ evs, ds ++ w.defers⟩ := by
  constructor
  · show leftOpen (w.trace ++ evs) = some (ds ++ w.defers)
    unfold leftOpen
    rw [List.foldl_append]
    have h1 : List.foldl stepOpen (some []) w.trace = some w.defers := hw.1
    rw [h1]
    exact hfold
  · intro h hh
    simp only [openedHandles, closedHandles, List.filterMap_append, List.mem_append] at hh ⊢
    rcases hh with hh | hh
    · rcases hw.2 h hh with h1 | h1
      · exact Or.inl (Or.inl h1)
      · exact Or.inr (Or.inr h1)
    · rcases hnew h hh with h1 | h1
      · exact Or.inl (Or.inr h1)
      · exact Or.inr (Or.inl h1)

theorem accounted_emit (w : World) (e : Event) (hw : Accounted w)
    (ho : e.opens = none) (hc : e.closes = none) : Accounted (w.emit e) := by
  have := accounted_step w [e] [] w.fs hw
    (by simp [List.foldl, stepOpen, ho, hc])
    (by simp [openedHandles, ho])
  simpa [World.emit] using this

theorem accounted_setFs (w : World) (fs : FS) (hw : Accounted w) :
    Accounted (w.setFs fs) := hw

theorem accounted_extractEntry (env : Env) (i : Nat) (f : ZipEntry) (w w1 : World)
    (hw : Accounted w) (h : extractEntry env i f w = Except.ok w1) : Accounted w1 := by
  unfold extractEntry at h
  split at h
  · cases h; exact hw
  split at h
  · cases h
  · simp only [] at h
    split at h
    · cases h
    · split at h
      · cases h
        rename_i p fs1 _ _
        have := accounted_step w
          [Event.openEntry i true,
            Event.mkdirAll (filepathDir f.name)
              (osMkdirAll w.fs env.cwd (filepathDir f.name)).2.2
              (osMkdirAll w.fs env.cwd (filepathDir f.name)).2.1,
            Event.create i f.name true,
            Event.copy (Handle.dstFile i) (ioCopy f.data f.readFault).2,
            Event.close (Handle.dstFile i)]
          [Handle.entryReader i] (fs1.put p (Node.file (ioCopy f.data f.readFault).1)) hw
          (by simp [List.foldl, stepOpen, Event.opens, Event.closes])
          (by simp [openedHandles, closedHandles, Event.opens, Event.closes])
        simpa [World.emit, World.setFs, World.pushDefer] using this
      · cases h

theorem accounted_extractLoop (env : Env) (files : List ZipEntry) :
    ∀ (i : Nat) (w w1 : World), Accounted w →
      extractLoop env i files w = Except.ok w1 → Accounted w1 := by
  induction files with
  | nil => intro i w w1 hw h; cases h; exact hw
  | cons f rest ih =>
    intro i w w1 hw h
    unfold extractLoop at h
    cases hx : extractEntry env i f w with
    | error w2 => rw [hx] at h; cases h
    | ok w2 =>
      rw [hx] at h
      exact ih (i + 1) w2 w1 (accounted_extractEntry env i f w w2 hw hx) h

theorem accounted_extract (env : Env) (z : String) (w w1 : World)
    (hw : Accounted w) (h : extract env z w = Except.ok w1) : Accounted w1 := by
  unfold extract at h
  simp only [] at h
  split at h
  · cases h
  · split at h
    · cases h
    · rename_i files _
      split at h
      · cases h
      · rename_i w3 hx
        cases h
        have h0 := accounted_step w
          [Event.log "Download complete, extracting zip file.", Event.openZip z true]
          [Handle.zipReader] w.fs hw
          (by simp [List.foldl, stepOpen, Event.opens, Event.closes])
          (by simp [openedHandles, closedHandles, Event.opens, Event.closes])
        have h3 := accounted_extractLoop env files 0 _ w3
          (by simpa [World.emit, World.setFs, World.pushDefer] using h0) hx
        have := accounted_step w3
          [Event.remove z (osRemove w3.fs env.cwd z).2] [] (osRemove w3.fs env.cwd z).1 h3
          (by simp [List.foldl, stepOpen, Event.opens, Event.closes])
          (by simp [openedHandles, closedHandles, Event.opens, Event.closes])
        simpa [World.emit, World.setFs] using this

theorem accounted_download (env : Env) (t : String) (w w1 : World) (z : String)
    (hw : Accounted w) (h : download env t w = Except.ok (w1, z)) : Accounted w1 := by
  unfold download at h
  simp only [] at h
  split at h
  · cases h
  · rename_i resp _
    split at h
    · cases h
    · rename_i p fs1 _
      split at h
      · cases h
        have := accounted_step w
          [Event.log (logLine (sprintf "Downloading from %s...\n" [sprintf releaseURL [version, t]])),
            Event.httpGet (sprintf releaseURL [version, t]) true,
            Event.createTemp (tempName env) true,
            Event.copy Handle.tempFile (ioCopy resp.body resp.readFault).2,
            Event.close Handle.tempFile]
          [Handle.respBody] (fs1.put p (Node.file (ioCopy resp.body resp.readFault).1)) hw
          (by simp [List.foldl, stepOpen, Event.opens, Event.closes])
          (by simp [openedHandles, closedHandles, Event.opens, Event.closes])
        simpa [World.emit, World.setFs, World.pushDefer] using this
      · cases h

theorem accounted_fetchAndExtract (env : Env) (goos arch : String) (fs : FS) (w1 : World)
    (h : fetchAndExtract env goos arch (World.start fs) = Except.ok w1) : Accounted w1 := by
  unfold fetchAndExtract at h
  simp only [] at h
  split at h
  · cases h
  · split at h
    · cases h
    · rename_i w2 z hd
      refine accounted_extract env z w2 w1 (accounted_download env _ _ w2 z ?_ hd) h
      refine accounted_emit _ _ ?_ rfl rfl
      exact ⟨rfl, fun x hx => by simp [openedHandles, World.start] at hx⟩

theorem accounted_finalize (env : Env) (goos arch : String) (w : World)
    (hw : Accounted w) : Accounted (finalize env goos arch w) := by
  unfold finalize
  simp only []
  refine accounted_emit _ _ ?_ rfl rfl
  refine accounted_emit _ _ (accounted_setFs _ _ ?_) rfl rfl
  refine accounted_emit _ _ (accounted_setFs _ _ ?_) rfl rfl
  refine accounted_emit _ _ (accounted_setFs _ _ ?_) rfl rfl
  refine accounted_emit _ _ (accounted_setFs _ _ ?_) rfl rfl
  exact accounted_emit _ _ hw rfl rfl

theorem closes_fold (ds : List Handle) :
    (ds.map Event.close).foldl stepOpen (some ds) = some [] := by
  induction ds with
  | nil => rfl
  | cons h rest ih =>
    simp only [List.map_cons, List.foldl_cons, stepOpen, Event.opens, Event.closes,
      List.mem_cons, true_or, ↓reduceIte, List.erase_cons_head]
    exact ih

theorem closed_after_runDefers (w : World) (hw : Accounted w) :
    leftOpen w.runDefers.trace = some [] ∧
    ∀ x ∈ openedHandles w.runDefers.trace, x ∈ closedHandles w.runDefers.trace := by
  constructor
  · show leftOpen (w.trace ++ w.defers.map Event.close) = some []
    unfold leftOpen
    rw [List.foldl_append]
    have h1 : List.foldl stepOpen (some []) w.trace = some w.defers := hw.1
    rw [h1]
    exact closes_fold w.defers
  · intro x hx
    simp only [World.runDefers, openedHandles, closedHandles, List.filterMap_append,
      List.mem_append, List.filterMap_map] at hx ⊢
    have hc : List.filterMap (Event.closes ∘ Event.close) w.defers = w.defers := by
      induction w.defers with
      | nil => rfl
      | cons a l ih => simp [List.filterMap_cons, Event.closes, ih]
    have ho : List.filterMap (Event.opens ∘ Event.close) w.defers = [] := by
      induction w.defers with
      | nil => rfl
      | cons a l ih => simp [List.filterMap_cons, Event.opens, ih]
    rw [hc]
    rw [ho] at hx
    simp only [List.not_mem_nil, or_false] at hx
    exact hw.2 x hx

/-- Counterexample to C9: when reading the response body breaks off, the
run ends with status 1 having opened the body and the temporary file and
closed nothing; when reading an archive entry breaks off, the run ends with
status 1 and of the five resources opened only the temporary file, closed
before extraction began, has been closed. -/
theorem handles_left_open_on_copy_failure :
    (main brokenBodyEnv "linux" "amd64" (World.start sampleFS)).2 = 1 ∧
    openedHandles (main brokenBodyEnv "linux" "amd64" (World.start sampleFS)).1.trace =
      [Handle.respBody, Handle.tempFile] ∧
    closedHandles (main brokenBodyEnv "linux" "amd64" (World.start sampleFS)).1.trace = [] ∧
    (main brokenEntryEnv "linux" "amd64" (World.start sampleFS)).2 = 1 ∧
    openedHandles (main brokenEntryEnv "linux" "amd64" (World.start sampleFS)).1.trace =
      [Handle.respBody, Handle.tempFile, Handle.zipReader, Handle.entryReader 0,
        Handle.dstFile 0] ∧
    closedHandles (main brokenEntryEnv "linux" "amd64" (World.start sampleFS)).1.trace =
      [Handle.tempFile] := by
  decide

/-- C9 as amended: in a run that ends with status 0, every resource opened
(response body, temporary file, zip reader, per-entry readers and
destination files) is closed before the process ends: every `Close` in the
run is for a resource open at that point, and at the end none is left
open. -/
theorem handles_closed_on_success (env : Env) (goos arch : String) (fs : FS)
    (h : (main env goos arch (World.start fs)).2 = 0) :
    leftOpen (main env goos arch (World.start fs)).1.trace = some [] ∧
    ∀ x ∈ openedHandles (main env goos arch (World.start fs)).1.trace,
      x ∈ closedHandles (main env goos arch (World.start fs)).1.trace := by
  unfold main at h ⊢
  cases hx : fetchAndExtract env goos arch (World.start fs) with
  | error w1 => rw [hx] at h; simp at h
  | ok w1 =>
    simp only []
    exact closed_after_runDefers _
      (accounted_finalize env goos arch w1 (accounted_fetchAndExtract env goos arch fs w1 hx))

/-- Witness for C9 as amended: the run on `sampleEnv`. -/
theorem handles_closed_on_success_witness :
    (main sampleEnv "linux" "amd64" (World.start sampleFS)).2 = 0 ∧
    leftOpen (main sampleEnv "linux" "amd64" (World.start sampleFS)).1.trace = some [] ∧
    ∀ x ∈ openedHandles (main sampleEnv "linux" "amd64" (World.start sampleFS)).1.trace,
      x ∈ closedHandles (main sampleEnv "linux" "amd64" (World.start sampleFS)).1.trace :=
  ⟨by decide, handles_closed_on_success sampleEnv "linux" "amd64" sampleFS (by decide)⟩

end Setup
